import Mathlib

/-!
Shallow embedding of the `kasa` secret store:
symmetric cipher strategies (`src/cyrpto/aes128.py`, `aes256.py`,
`chacha20.py`), the salt class (`src/cyrpto/salt.py`), the dual-store
repositories (`src/repository/cipherRepository.py`, `saltRepository.py`)
and the service layer (`src/services/cipherService.py`, `saltService.py`).

Byte strings are `List Nat` with every element `< 256`; Python `str`
values are Lean `String`s (lists of Unicode scalar values, which is what
Python strings are).  The external PyCryptodome block-cipher cores
(`AES.new(key).encrypt` / `.decrypt`) and the ChaCha20 keystream are not
code of this repository: they are modelled as parameters together with
their documented contracts (a length-preserving permutation of 16-byte
blocks, resp. a byte stream determined by key and nonce).  Everything the
repository itself does — UTF-8 encoding, PKCS#7 padding, ECB chunking,
hex rendering, the nonce:ciphertext token format, key resizing, the
store/cache state machine and the service logic — is embedded concretely.
-/

/-! ## Hex encoding (Python `bytes.hex` / `bytes.fromhex`) -/

/-- Lowercase hex digit for a value `0..15`, as produced by `bytes.hex()`
(digits `0`..`9` then `a`..`f`, by character-code arithmetic). -/
def hexDigit (d : Nat) : Char :=
  if d < 10 then Char.ofNat ('0'.toNat + d) else Char.ofNat ('a'.toNat + d - 10)

/-- Value of a hex digit character (upper or lower case), as accepted by
`bytes.fromhex`; `none` on a non-hex character. -/
def hexVal (c : Char) : Option Nat :=
  let n := c.toNat
  if '0'.toNat ≤ n ∧ n ≤ '9'.toNat then some (n - '0'.toNat)
  else if 'a'.toNat ≤ n ∧ n ≤ 'f'.toNat then some (n - 'a'.toNat + 10)
  else if 'A'.toNat ≤ n ∧ n ≤ 'F'.toNat then some (n - 'A'.toNat + 10)
  else none

/-- `bytes.hex()`: each byte becomes two lowercase hex digits. -/
def hexEncode : List Nat → List Char
  | [] => []
  | b :: bs => hexDigit (b / 16) :: hexDigit (b % 16) :: hexEncode bs

/-- `bytes.fromhex`: pairs of hex digits; fails on a stray digit or a
non-hex character. -/
def hexDecode : List Char → Option (List Nat)
  | [] => some []
  | [_] => none
  | c1 :: c2 :: cs =>
    match hexVal c1, hexVal c2, hexDecode cs with
    | some h, some l, some bs => some ((h * 16 + l) :: bs)
    | _, _, _ => none

/-! ## UTF-8 (Python `str.encode('utf-8')` / `bytes.decode('utf-8')`) -/

/-- UTF-8 encoding of one Unicode scalar value. -/
def utf8EncodeChar (c : Char) : List Nat :=
  let n := c.toNat
  if n < 0x80 then [n]
  else if n < 0x800 then [0xC0 + n / 64, 0x80 + n % 64]
  else if n < 0x10000 then
    [0xE0 + n / 4096, 0x80 + n / 64 % 64, 0x80 + n % 64]
  else
    [0xF0 + n / 0x40000, 0x80 + n / 4096 % 64, 0x80 + n / 64 % 64,
     0x80 + n % 64]

/-- `str.encode('utf-8')` on the string's scalar values. -/
def utf8Encode : List Char → List Nat
  | [] => []
  | c :: cs => utf8EncodeChar c ++ utf8Encode cs

/-- A UTF-8 continuation byte. -/
def isCont (b : Nat) : Bool := 0x80 ≤ b && b < 0xC0

/-- The scalar value of a 2-byte sequence. -/
def utf8Val2 (b b1 : Nat) : Nat := (b - 0xC0) * 64 + (b1 - 0x80)

/-- The scalar value of a 3-byte sequence. -/
def utf8Val3 (b b1 b2 : Nat) : Nat :=
  (b - 0xE0) * 4096 + (b1 - 0x80) * 64 + (b2 - 0x80)

/-- The scalar value of a 4-byte sequence. -/
def utf8Val4 (b b1 b2 b3 : Nat) : Nat :=
  (b - 0xF0) * 0x40000 + (b1 - 0x80) * 4096 + (b2 - 0x80) * 64 + (b3 - 0x80)

/-- Strict UTF-8 decoding (`bytes.decode('utf-8')`): rejects stray or
missing continuation bytes, overlong encodings, surrogates and values
above `0x10FFFF`. -/
def utf8Decode (l : List Nat) : Option (List Char) :=
  match l with
  | [] => some []
  | b :: bs =>
    if b < 0x80 then (utf8Decode bs).map (Char.ofNat b :: ·)
    else if b < 0xC2 then none
    else if b < 0xE0 then
      if 1 ≤ bs.length ∧ isCont (bs.getD 0 0) then
        (utf8Decode (bs.drop 1)).map (Char.ofNat (utf8Val2 b (bs.getD 0 0)) :: ·)
      else none
    else if b < 0xF0 then
      if 2 ≤ bs.length ∧ isCont (bs.getD 0 0) ∧ isCont (bs.getD 1 0) ∧
          0x800 ≤ utf8Val3 b (bs.getD 0 0) (bs.getD 1 0) ∧
          ¬(0xD800 ≤ utf8Val3 b (bs.getD 0 0) (bs.getD 1 0) ∧
            utf8Val3 b (bs.getD 0 0) (bs.getD 1 0) < 0xE000) then
        (utf8Decode (bs.drop 2)).map
          (Char.ofNat (utf8Val3 b (bs.getD 0 0) (bs.getD 1 0)) :: ·)
      else none
    else if b < 0xF5 then
      if 3 ≤ bs.length ∧ isCont (bs.getD 0 0) ∧ isCont (bs.getD 1 0) ∧
          isCont (bs.getD 2 0) ∧
          0x10000 ≤ utf8Val4 b (bs.getD 0 0) (bs.getD 1 0) (bs.getD 2 0) ∧
          utf8Val4 b (bs.getD 0 0) (bs.getD 1 0) (bs.getD 2 0) < 0x110000 then
        (utf8Decode (bs.drop 3)).map
          (Char.ofNat (utf8Val4 b (bs.getD 0 0) (bs.getD 1 0) (bs.getD 2 0)) :: ·)
      else none
    else none
  termination_by l.length
  decreasing_by
    all_goals simp [List.length_drop]
    all_goals omega

/-- `str.encode('utf-8')` at the `String` level. -/
def strEncode (s : String) : List Nat := utf8Encode s.data

/-- `bytes.decode('utf-8')` at the `String` level. -/
def strDecode (bs : List Nat) : Option String :=
  (utf8Decode bs).map String.mk

/-! ## PKCS#7 padding (`Crypto.Util.Padding.pad` / `unpad`, block 16) -/

/-- Number of padding bytes appended by `pad(data, 16)`: always `1..16`. -/
def padLen (l : List Nat) : Nat := 16 - l.length % 16

/-- `Crypto.Util.Padding.pad(data, AES.block_size)`. -/
def pad16 (l : List Nat) : List Nat := l ++ List.replicate (padLen l) (padLen l)

/-- `Crypto.Util.Padding.unpad(data, AES.block_size)`: fails unless the
length is a positive multiple of 16, the final byte `n` is in `1..16`
and the last `n` bytes all equal `n`. -/
def unpad16 (l : List Nat) : Option (List Nat) :=
  if l.length % 16 ≠ 0 then none else
  match l.getLast? with
  | none => none
  | some n =>
    if 1 ≤ n ∧ n ≤ 16 ∧ n ≤ l.length ∧
        l.drop (l.length - n) = List.replicate n n then
      some (l.take (l.length - n))
    else none

/-! ## ECB chunking (PyCryptodome's `MODE_ECB` applies the block
permutation to each consecutive 16-byte block; it raises unless the
input length is a multiple of 16, which `pad16` guarantees on the
encryption side and `hexDecode` length checking makes explicit on the
decryption side) -/

/-- Apply `f` to each consecutive 16-byte block of the input, collecting
the accumulator in reverse.  Only ever used on inputs whose length is a
multiple of 16. -/
def ecbGo (f : List Nat → List Nat) (acc : List Nat) : List Nat → List Nat
  | [] => if acc.isEmpty then [] else f acc.reverse
  | b :: bs =>
    if acc.length + 1 = 16 then f (b :: acc).reverse ++ ecbGo f [] bs
    else ecbGo f (b :: acc) bs

/-- `AES.new(key, AES.MODE_ECB).encrypt` / `.decrypt` as a blockwise map;
`none` when the input length is not a multiple of 16 (PyCryptodome raises). -/
def ecbApply (f : List Nat → List Nat) (l : List Nat) : Option (List Nat) :=
  if l.length % 16 = 0 then some (ecbGo f [] l) else none

/-! ## External cipher cores, as parameters with their contracts -/

/-- An external raw block cipher core: the per-16-byte-block permutation
of `AES.new(keyBytes, MODE_ECB)`, parameterized by the key bytes. -/
structure BlockPrim where
  enc : List Nat → List Nat → List Nat
  dec : List Nat → List Nat → List Nat

/-- Documented contract of the block cipher core: on a 16-byte block of
bytes it is a length- and byte-range-preserving permutation inverted by
`dec`. -/
structure BlockPrimOK (B : BlockPrim) : Prop where
  encLen : ∀ k b, b.length = 16 → (∀ x ∈ b, x < 256) → (B.enc k b).length = 16
  encBytes : ∀ k b, b.length = 16 → (∀ x ∈ b, x < 256) → ∀ x ∈ B.enc k b, x < 256
  decEnc : ∀ k b, b.length = 16 → (∀ x ∈ b, x < 256) → B.dec k (B.enc k b) = b

/-- The external cipher cores the strategies call into: the AES-128 and
AES-256 block permutations and the ChaCha20 keystream
(key bytes → nonce bytes → position → keystream byte). -/
structure CryptoPrims where
  aes128 : BlockPrim
  aes256 : BlockPrim
  chachaKS : List Nat → List Nat → Nat → Nat

/-- Documented contracts of all three cores. -/
structure CryptoPrimsOK (P : CryptoPrims) : Prop where
  aes128OK : BlockPrimOK P.aes128
  aes256OK : BlockPrimOK P.aes256
  ksBytes : ∀ k n i, P.chachaKS k n i < 256

/-! ## Key resizing (`key.encode('utf-8')[:n].ljust(n, b'0')`) -/

/-- `key.encode('utf-8')[:n].ljust(n, b'0')`: truncate the UTF-8 bytes
to `n`, then right-pad with the ASCII digit `0` (0x30). -/
def keyBytes (n : Nat) (key : String) : List Nat :=
  let t := (strEncode key).take n
  t ++ List.replicate (n - t.length) 0x30

/-! ## Cipher strategies (`src/cyrpto/aes128.py`, `aes256.py`, `chacha20.py`) -/

/-- Errors raised by the embedded code; Python raises `ValueError` /
`ImportError` / decode errors with distinguishing messages, modelled here
as distinct constructors. -/
inductive PyErr where
  | unsupportedMethod (name : String)
  | importArgon2
  | cryptoFormat
  | firstSaltMissing
  | cipherNotFound (id : Nat)
  | saltNotFound (id : Nat)
  | noMatches (pattern : String)
  | ambiguousName (count : Nat)
  | nameMismatch (pattern : String)
  | keyRequired
  | cacheWriteFailed
  | storeUnavailable
  deriving Repr, DecidableEq

/-- The shared body of `AES128.encrypt` and `AES256.encrypt` (the two
classes are verbatim copies differing only in key length): pad to the
block size, encrypt in ECB mode, render as a hex string. -/
def blockEncrypt (Bp : BlockPrim) (kb : List Nat) (data : String) : String :=
  match ecbApply (Bp.enc kb) (pad16 (strEncode data)) with
  | some ct => String.mk (hexEncode ct)
  | none => ""

/-- The shared body of `AES128.decrypt` and `AES256.decrypt`: parse the
hex, decrypt in ECB mode, unpad, decode.  Python raises on bad hex,
wrong length, bad padding or invalid UTF-8. -/
def blockDecrypt (Bp : BlockPrim) (kb : List Nat) (data : String) :
    Except PyErr String :=
  match hexDecode data.data with
  | none => .error .cryptoFormat
  | some ct =>
    match ecbApply (Bp.dec kb) ct with
    | none => .error .cryptoFormat
    | some padded =>
      match unpad16 padded with
      | none => .error .cryptoFormat
      | some bs =>
        match strDecode bs with
        | none => .error .cryptoFormat
        | some s => .ok s

namespace AES128

/-- `AES128.__init__`: `self.key_bytes = self.key.encode('utf-8')[:16].ljust(16, b'0')`. -/
def key_bytes (key : String) : List Nat := keyBytes 16 key

/-- `AES128.encrypt`. -/
def encrypt (P : CryptoPrims) (key data : String) : String :=
  blockEncrypt P.aes128 (key_bytes key) data

/-- `AES128.decrypt`. -/
def decrypt (P : CryptoPrims) (key data : String) : Except PyErr String :=
  blockDecrypt P.aes128 (key_bytes key) data

end AES128

namespace AES256

/-- `AES256.__init__`: `self.key_bytes = self.key.encode('utf-8')[:32].ljust(32, b'0')`. -/
def key_bytes (key : String) : List Nat := keyBytes 32 key

/-- `AES256.encrypt`. -/
def encrypt (P : CryptoPrims) (key data : String) : String :=
  blockEncrypt P.aes256 (key_bytes key) data

/-- `AES256.decrypt`. -/
def decrypt (P : CryptoPrims) (key data : String) : Except PyErr String :=
  blockDecrypt P.aes256 (key_bytes key) data

end AES256

/-- XOR a byte list against a keystream starting at position `i`. -/
def xorKS (ks : Nat → Nat) (i : Nat) : List Nat → List Nat
  | [] => []
  | b :: bs => (b ^^^ ks i) :: xorKS ks (i + 1) bs

/-- Split a character list at its colons, returning the segments. -/
def splitColon : List Char → List Char × List (List Char)
  | [] => ([], [])
  | c :: cs =>
    let (seg, rest) := splitColon cs
    if c = ':' then ([], seg :: rest) else (c :: seg, rest)

namespace Chacha20

/-- `Chacha20.__init__`: `self.key_bytes = self.key.encode('utf-8')[:32].ljust(32, b'0')`. -/
def key_bytes (key : String) : List Nat := keyBytes 32 key

/-- `Chacha20.encrypt`: XOR the UTF-8 bytes against the keystream for a
fresh random nonce (the nonce is the call's randomness, passed
explicitly here) and return `hex(nonce) + ":" + hex(ciphertext)`. -/
def encrypt (P : CryptoPrims) (key : String) (nonce : List Nat)
    (data : String) : String :=
  let ct := xorKS (P.chachaKS (key_bytes key) nonce) 0 (strEncode data)
  String.mk (hexEncode nonce ++ ':' :: hexEncode ct)

/-- `Chacha20.decrypt`: split on `":"` (the destructuring assignment
raises unless there are exactly two parts), parse both hex strings,
XOR against the keystream and decode. -/
def decrypt (P : CryptoPrims) (key data : String) : Except PyErr String :=
  match splitColon data.data with
  | (nonceHex, [ctHex]) =>
    match hexDecode nonceHex, hexDecode ctHex with
    | some nonce, some ct =>
      match strDecode (xorKS (P.chachaKS (key_bytes key) nonce) 0 ct) with
      | some s => .ok s
      | none => .error .cryptoFormat
    | _, _ => .error .cryptoFormat
  | _ => .error .cryptoFormat

end Chacha20

/-! ## Method dispatch (`src/cyrpto/encryptor.py` and the missing
`src/cyrpto/decrptor.py`) -/

/-- Python `str.lower()` (the registry keys and stored method names are
ASCII, where `Char.toLower` agrees with Python). -/
def pyLower (s : String) : String := String.mk (s.data.map Char.toLower)

namespace Encryptor

/-- `Encryptor.__init__` + `Encryptor.encrypt`: look the lowercased
method name up in the fixed registry and encrypt; an unknown method
raises `ValueError` at construction time.  `nonce` is the randomness a
ChaCha20 encryption would draw. -/
def encrypt (P : CryptoPrims) (method key : String) (nonce : List Nat)
    (plaintext : String) : Except PyErr String :=
  let m := pyLower method
  if m = "aes128" then .ok (AES128.encrypt P key plaintext)
  else if m = "aes256" then .ok (AES256.encrypt P key plaintext)
  else if m = "chacha20" then .ok (Chacha20.encrypt P key nonce plaintext)
  else .error (.unsupportedMethod m)

end Encryptor

namespace Decryptor

/-- Modelled from the spec: `src/cyrpto/decrptor.py` (the `Decryptor`
class imported by `cipherService.py`) is absent from the sources; per
§4.1 it looks the method name up case-insensitively in the fixed
registry {aes128, aes256, chacha20}, fails with `UnsupportedMethod` at
construction time for an unknown method, and dispatches `decrypt` to
the selected strategy. -/
def decrypt (P : CryptoPrims) (method key : String)
    (data : String) : Except PyErr String :=
  let m := pyLower method
  if m = "aes128" then AES128.decrypt P key data
  else if m = "aes256" then AES256.decrypt P key data
  else if m = "chacha20" then Chacha20.decrypt P key data
  else .error (.unsupportedMethod m)

end Decryptor

/-! ## Salt (`src/cyrpto/salt.py`) -/

/-- An in-memory `Salt` instance: a hash method plus a salt value. -/
structure SaltObj where
  method : String
  salt : String
  deriving Repr, DecidableEq

namespace Salt

/-- `Salt._methods`. -/
def methods : List String := ["sha256", "sha512", "md5", "argon2"]

/-- `Salt.__init__`: rejects a method outside `_methods` with
`ValueError`, rejects `argon2` with `ImportError`; the salt value is
`salt or self._generate_salt()` (Python `or`: an omitted or empty value
falls back to the generated random hex string, passed here as `gen`). -/
def new (method : String) (saltVal : Option String) (gen : String) :
    Except PyErr SaltObj :=
  if ¬ methods.contains method then .error (.unsupportedMethod method)
  else if method = "argon2" then .error .importArgon2
  else
    let s := match saltVal with
      | some v => if v = "" then gen else v
      | none => gen
    .ok ⟨method, s⟩

/-- `Salt.get_methods`. -/
def get_methods : List String := methods

end Salt

/-! ## Data model (`src/model/model_salt.py`, `model_cipher.py`,
`model_session.py`) and the shared two-tier store.

Both repositories are constructed from the same configuration, so they
share one sqlite file (separate tables) and one redis database: the
embedding keeps one state holding every table plus the single cache.
Redis keys follow the `"<kind>:<id>"` scheme of the source. -/

/-- `ModelSalt`: `{id, method, salt}`. -/
structure ModelSalt where
  id : Nat
  method : String
  salt : String
  deriving Repr, DecidableEq

/-- `ModelCipher`: `{id, name, encrypted_cipher, method}`. -/
structure ModelCipher where
  id : Nat
  name : String
  encrypted_cipher : String
  method : String
  deriving Repr, DecidableEq

/-- `ModelSession`: `{id, token, expiration}`. -/
structure ModelSession where
  id : Nat
  token : String
  expiration : String
  deriving Repr, DecidableEq

/-- A cached record (redis hash value), tagged by kind. -/
inductive CacheEntry where
  | saltE (s : ModelSalt)
  | cipherE (c : ModelCipher)
  | sessionE (s : ModelSession)
  deriving Repr, DecidableEq

/-- The combined persistent state: the sqlite tables (authoritative),
the shared redis database, and each table's autoincrement counter. -/
structure KasaDB where
  saltRows : List ModelSalt
  cipherRows : List ModelCipher
  sessionRows : List ModelSession
  cache : List (String × CacheEntry)
  nextSaltId : Nat
  nextCipherId : Nat
  deriving Repr, DecidableEq

/-- `redis.hset(key, mapping=...)`: create or overwrite the hash at `key`. -/
def cacheSet (c : List (String × CacheEntry)) (k : String) (e : CacheEntry) :
    List (String × CacheEntry) :=
  (k, e) :: c.filter (fun kv => kv.1 ≠ k)

/-- `redis.delete(key)`: idempotent removal. -/
def cacheDel (c : List (String × CacheEntry)) (k : String) :
    List (String × CacheEntry) :=
  c.filter (fun kv => kv.1 ≠ k)

/-- `redis.hgetall(key)`: `none` when the key is absent (empty hash). -/
def cacheGet (c : List (String × CacheEntry)) (k : String) : Option CacheEntry :=
  (c.find? (fun kv => kv.1 = k)).map (·.2)

/-! ## `CipherRepository` (`src/repository/cipherRepository.py`)

The backing stores are external processes, so their availability is a
parameter: `cacheOk` is whether a redis write succeeds (the source wraps
no redis call in `try`, so a redis failure propagates as an exception),
`storeOk` is whether sqlite is reachable.  Service-layer code runs the
normal path (`true`). -/

namespace CipherRepository

/-- `f"cipher:{id}"`. -/
def cacheKey (i : Nat) : String := "cipher:" ++ toString i

/-- The cache-first lookup of `get`.  Keys are kind-prefixed, so along
reachable states a `cipher:<id>` key only ever holds a cipher record;
a foreign entry under such a key is treated as a miss. -/
def cacheGetCipher (db : KasaDB) (i : Nat) : Option ModelCipher :=
  match cacheGet db.cache (cacheKey i) with
  | some (.cipherE c) => some c
  | _ => none

/-- `session.query(ModelCipher).filter_by(id=index).first()`. -/
def storeGetCipher (db : KasaDB) (i : Nat) : Option ModelCipher :=
  db.cipherRows.find? (fun r => r.id = i)

/-- `add`: insert into sqlite (which assigns `id` on commit), then
`hset` the full record into the cache; a failing cache write raises
after the store commit, leaving the row in the store. -/
def add (db : KasaDB) (name encrypted method : String) (cacheOk : Bool) :
    (Except PyErr Nat) × KasaDB :=
  let cid := db.nextCipherId
  let row : ModelCipher := ⟨cid, name, encrypted, method⟩
  let db1 := { db with cipherRows := db.cipherRows ++ [row],
                       nextCipherId := cid + 1 }
  if cacheOk then
    (.ok cid, { db1 with cache := cacheSet db1.cache (cacheKey cid) (.cipherE row) })
  else
    (.error .cacheWriteFailed, db1)

/-- `get`: cache first; on a hit return without touching sqlite; on a
miss query sqlite and, when the row exists, `hset` it into the cache
before returning; `none` when absent from both. -/
def get (db : KasaDB) (i : Nat) (storeOk : Bool) :
    (Except PyErr (Option ModelCipher)) × KasaDB :=
  match cacheGetCipher db i with
  | some c => (.ok (some c), db)
  | none =>
    if storeOk then
      match storeGetCipher db i with
      | some c =>
        (.ok (some c), { db with cache := cacheSet db.cache (cacheKey i) (.cipherE c) })
      | none => (.ok none, db)
    else (.error .storeUnavailable, db)

/-- `update`: overwrite the row's mutable fields if it exists (no-op
otherwise), then overwrite the cache entry. -/
def update (db : KasaDB) (i : Nat) (item : ModelCipher) : KasaDB :=
  match storeGetCipher db i with
  | some _ =>
    let row : ModelCipher := ⟨i, item.name, item.encrypted_cipher, item.method⟩
    { db with
      cipherRows := db.cipherRows.map (fun r => if r.id = i then row else r),
      cache := cacheSet db.cache (cacheKey i) (.cipherE row) }
  | none => db

/-- `delete`: delete the row if present, then delete the cache key
unconditionally. -/
def delete (db : KasaDB) (i : Nat) : KasaDB :=
  { db with cipherRows := db.cipherRows.filter (fun r => r.id ≠ i),
            cache := cacheDel db.cache (cacheKey i) }

/-- `get_all`: always sourced from sqlite; repopulates the cache for
every returned record as a side effect. -/
def get_all (db : KasaDB) : List ModelCipher × KasaDB :=
  let cache1 := db.cipherRows.foldl
    (fun c r => cacheSet c (cacheKey r.id) (.cipherE r)) db.cache
  (db.cipherRows, { db with cache := cache1 })

end CipherRepository

/-! ## `SaltRepository` (`src/repository/saltRepository.py`) -/

namespace SaltRepository

/-- `f"salt:{id}"`. -/
def cacheKey (i : Nat) : String := "salt:" ++ toString i

/-- Cache-first lookup of `get` (see `CipherRepository.cacheGetCipher`). -/
def cacheGetSalt (db : KasaDB) (i : Nat) : Option ModelSalt :=
  match cacheGet db.cache (cacheKey i) with
  | some (.saltE s) => some s
  | _ => none

/-- `session.query(ModelSalt).filter_by(id=index).first()`. -/
def storeGetSalt (db : KasaDB) (i : Nat) : Option ModelSalt :=
  db.saltRows.find? (fun r => r.id = i)

/-- `add`: sqlite insert (id assigned), then cache write. -/
def add (db : KasaDB) (method salt : String) (cacheOk : Bool) :
    (Except PyErr Nat) × KasaDB :=
  let sid := db.nextSaltId
  let row : ModelSalt := ⟨sid, method, salt⟩
  let db1 := { db with saltRows := db.saltRows ++ [row],
                       nextSaltId := sid + 1 }
  if cacheOk then
    (.ok sid, { db1 with cache := cacheSet db1.cache (cacheKey sid) (.saltE row) })
  else
    (.error .cacheWriteFailed, db1)

/-- `get`: cache first, then sqlite with read-through repopulation. -/
def get (db : KasaDB) (i : Nat) (storeOk : Bool) :
    (Except PyErr (Option ModelSalt)) × KasaDB :=
  match cacheGetSalt db i with
  | some s => (.ok (some s), db)
  | none =>
    if storeOk then
      match storeGetSalt db i with
      | some s =>
        (.ok (some s), { db with cache := cacheSet db.cache (cacheKey i) (.saltE s) })
      | none => (.ok none, db)
    else (.error .storeUnavailable, db)

/-- `delete`: delete the row if present, then delete the cache key. -/
def delete (db : KasaDB) (i : Nat) : KasaDB :=
  { db with saltRows := db.saltRows.filter (fun r => r.id ≠ i),
            cache := cacheDel db.cache (cacheKey i) }

/-- `delete_all`: `session.query(ModelSalt).delete()` removes every salt
row, then `redis.flushdb()` empties the entire shared cache database. -/
def delete_all (db : KasaDB) : KasaDB :=
  { db with saltRows := [], cache := [] }

/-- `get_all`: from sqlite, repopulating the cache as a side effect. -/
def get_all (db : KasaDB) : List ModelSalt × KasaDB :=
  let cache1 := db.saltRows.foldl
    (fun c r => cacheSet c (cacheKey r.id) (.saltE r)) db.cache
  (db.saltRows, { db with cache := cache1 })

end SaltRepository

/-- Python's substring test `needle in hay`. -/
def strContains (needle : List Char) : List Char → Bool
  | [] => needle.isEmpty
  | b :: bs => needle.isPrefixOf (b :: bs) || strContains needle bs

/-! ## `SaltService` (`src/services/saltService.py`) -/

namespace SaltService

/-- `get_salt`: repository get; the service returns the record's field
dict, embedded as the record itself. -/
def get_salt (db : KasaDB) (i : Nat) :
    (Except PyErr (Option ModelSalt)) × KasaDB :=
  SaltRepository.get db i true

/-- `create_salt`: validate via the `Salt` class (which also generates
the random value, passed here as `gen`), convert to the model and add. -/
def create_salt (db : KasaDB) (method : String) (saltVal : Option String)
    (gen : String) : (Except PyErr Nat) × KasaDB :=
  match Salt.new method saltVal gen with
  | .error e => (.error e, db)
  | .ok s => SaltRepository.add db s.method s.salt true

/-- `delete_salt`: existence check then repository delete. -/
def delete_salt (db : KasaDB) (i : Nat) : Bool × KasaDB :=
  match SaltRepository.get db i true with
  | (.ok (some _), db1) => (true, SaltRepository.delete db1 i)
  | (_, db1) => (false, db1)

end SaltService

/-! ## `CipherService` (`src/services/cipherService.py`) -/

namespace CipherService

/-- `create_cipher`: validate the method and encrypt via `Encryptor`,
then persist through the repository. -/
def create_cipher (P : CryptoPrims) (db : KasaDB)
    (name plaintext method key : String) (nonce : List Nat) :
    (Except PyErr Nat) × KasaDB :=
  match Encryptor.encrypt P method key nonce plaintext with
  | .error e => (.error e, db)
  | .ok enc => CipherRepository.add db name enc method true

/-- `get_cipher`. -/
def get_cipher (db : KasaDB) (i : Nat) :
    (Except PyErr (Option ModelCipher)) × KasaDB :=
  CipherRepository.get db i true

/-- `decrypt_cipher`: load the cipher (`ValueError` when absent),
construct a `Decryptor` for the cipher's stored method and decrypt. -/
def decrypt_cipher (P : CryptoPrims) (db : KasaDB) (i : Nat) (key : String) :
    (Except PyErr String) × KasaDB :=
  match CipherRepository.get db i true with
  | (.error e, db1) => (.error e, db1)
  | (.ok none, db1) => (.error (.cipherNotFound i), db1)
  | (.ok (some row), db1) =>
    match Decryptor.decrypt P row.method key row.encrypted_cipher with
    | .error e => (.error e, db1)
    | .ok pt => (.ok pt, db1)

/-- The `try` body of `update_cipher`: `.ok false` is the early
`return False` for a missing cipher, an `.error` is a raised exception
(in particular `KeyRequired` when a new plaintext, method or key is
given without a usable key). -/
def update_cipher_inner (P : CryptoPrims) (db : KasaDB) (i : Nat)
    (nameO ptO mO keyO : Option String) (nonce : List Nat) :
    (Except PyErr Bool) × KasaDB :=
  match CipherRepository.get db i true with
  | (.error e, db1) => (.error e, db1)
  | (.ok none, db1) => (.ok false, db1)
  | (.ok (some existing), db1) =>
    let updName := nameO.getD existing.name
    let updMethod := mO.getD existing.method
    if ptO.isSome || mO.isSome || keyO.isSome then
      match keyO with
      | none => (.error .keyRequired, db1)
      | some k =>
        if k = "" then (.error .keyRequired, db1)
        else
          let ptRes : (Except PyErr String) × KasaDB :=
            match ptO with
            | some p => (.ok p, db1)
            | none => decrypt_cipher P db1 i k
          match ptRes with
          | (.error e, db2) => (.error e, db2)
          | (.ok newPt, db2) =>
            match Encryptor.encrypt P updMethod k nonce newPt with
            | .error e => (.error e, db2)
            | .ok newEnc =>
              (.ok true,
               CipherRepository.update db2 i ⟨i, updName, newEnc, updMethod⟩)
    else
      (.ok true,
       CipherRepository.update db1 i
         ⟨i, updName, existing.encrypted_cipher, existing.method⟩)

/-- `update_cipher`: the surrounding `try`/`except` turns any raised
exception into `False`, keeping whatever state the body reached. -/
def update_cipher (P : CryptoPrims) (db : KasaDB) (i : Nat)
    (nameO ptO mO keyO : Option String) (nonce : List Nat) : Bool × KasaDB :=
  match update_cipher_inner P db i nameO ptO mO keyO nonce with
  | (.ok b, db1) => (b, db1)
  | (.error _, db1) => (false, db1)

/-- `list_all_ciphers`: `repository.get_all()` (with its cache
repopulation side effect). -/
def list_all_ciphers (db : KasaDB) : List ModelCipher × KasaDB :=
  CipherRepository.get_all db

/-- `search_ciphers_by_name`: case-insensitive substring match of the
pattern over every cipher's name, scanning the full list. -/
def search_ciphers_by_name (db : KasaDB) (pattern : String) :
    List ModelCipher × KasaDB :=
  let (allCiphers, db1) := list_all_ciphers db
  (allCiphers.filter
    (fun c => strContains (pyLower pattern).data (pyLower c.name).data), db1)

/-- `create_cipher_with_first_salt_key`: read salt id 1 (raising
`ValueError` when absent), use the decimal string `"1"` of that id as
the encryption key, create the cipher, and fetch it back for the result
payload. -/
def create_cipher_with_first_salt_key (P : CryptoPrims) (db : KasaDB)
    (name plaintext method : String) (nonce : List Nat) :
    (Except PyErr Nat) × KasaDB :=
  match SaltService.get_salt db 1 with
  | (.error e, db1) => (.error e, db1)
  | (.ok none, db1) => (.error .firstSaltMissing, db1)
  | (.ok (some _), db1) =>
    match create_cipher P db1 name plaintext method "1" nonce with
    | (.error e, db2) => (.error e, db2)
    | (.ok cid, db2) =>
      let (_, db3) := get_cipher db2 cid
      (.ok cid, db3)

/-- `decrypt_cipher_with_first_salt_key`: re-verify that salt id 1
still exists (raising otherwise), reconstruct the key `"1"`, and
decrypt the cipher with its stored method. -/
def decrypt_cipher_with_first_salt_key (P : CryptoPrims) (db : KasaDB)
    (i : Nat) : (Except PyErr String) × KasaDB :=
  match SaltService.get_salt db 1 with
  | (.error e, db1) => (.error e, db1)
  | (.ok none, db1) => (.error .firstSaltMissing, db1)
  | (.ok (some _), db1) => decrypt_cipher P db1 i "1"

/-- `decrypt_cipher_by_name_with_first_salt_key`: search by name; zero
matches raise, more than one match raises, and a single match whose
name is not exactly the search term also raises (the source's
`if cipher["name"] != cipher_name` check) before decryption. -/
def decrypt_cipher_by_name_with_first_salt_key (P : CryptoPrims)
    (db : KasaDB) (pattern : String) : (Except PyErr String) × KasaDB :=
  let (found, db1) := search_ciphers_by_name db pattern
  match found with
  | [] => (.error (.noMatches pattern), db1)
  | [c] =>
    if c.name ≠ pattern then (.error (.nameMismatch pattern), db1)
    else decrypt_cipher_with_first_salt_key P db1 c.id
  | _ => (.error (.ambiguousName found.length), db1)

end CipherService

/-! ## Concrete instances used by closed statements -/

/-- A concrete external core satisfying every contract: the identity
block permutation and the all-zero keystream.  Used only to instantiate
closed witness statements; the theorems hold for every contract-abiding
core. -/
def idPrims : CryptoPrims :=
  { aes128 := ⟨fun _ b => b, fun _ b => b⟩
    aes256 := ⟨fun _ b => b, fun _ b => b⟩
    chachaKS := fun _ _ _ => 0 }

/-- An empty freshly-initialized state (sqlite autoincrement starts at 1). -/
def emptyDB : KasaDB := ⟨[], [], [], [], 1, 1⟩

/-- A store-resident cipher record used by concrete instantiations. -/
def rowW : ModelCipher := ⟨1, "greet", "00", "aes256"⟩

/-- A state whose store holds `rowW` with an empty cache. -/
def dbW : KasaDB := ⟨[], [rowW], [], [], 1, 2⟩

/-- `dbW` after the read-through repopulation of `get 1`. -/
def dbW2 : KasaDB :=
  { dbW with cache := cacheSet dbW.cache (CipherRepository.cacheKey 1) (.cipherE rowW) }

/-- A state with the first salt present and one cipher named `"dup_a"`. -/
def dbDup : KasaDB :=
  ⟨[⟨1, "sha256", "s"⟩], [⟨1, "dup_a", "00", "aes256"⟩], [], [], 2, 2⟩

/-- A state with the first salt present and no ciphers. -/
def dbSalt : KasaDB := ⟨[⟨1, "sha256", "s"⟩], [], [], [], 2, 1⟩

/-- A state holding a cipher record but no salt (as after deleting the
first salt). -/
def dbNoSalt : KasaDB := ⟨[], [rowW], [], [], 1, 2⟩

/-! ## Proofs about the encoding layers -/

theorem hexVal_hexDigit : ∀ d, d < 16 → hexVal (hexDigit d) = some d := by
  decide

theorem hexDigit_ne_colon : ∀ d, d < 16 → hexDigit d ≠ ':' := by
  decide

theorem hexDecode_hexEncode (bs : List Nat) (h : ∀ b ∈ bs, b < 256) :
    hexDecode (hexEncode bs) = some bs := by
  induction bs with
  | nil => rfl
  | cons b bs ih =>
    have hb : b < 256 := h b (List.mem_cons_self ..)
    have h1 : b / 16 < 16 := by omega
    have h2 : b % 16 < 16 := by omega
    have hrest : hexDecode (hexEncode bs) = some bs :=
      ih fun x hx => h x (List.mem_cons_of_mem _ hx)
    simp only [hexEncode, hexDecode, hexVal_hexDigit _ h1, hexVal_hexDigit _ h2,
      hrest]
    congr 2
    omega

theorem mem_hexEncode_ne_colon (bs : List Nat) (hb : ∀ b ∈ bs, b < 256) :
    ∀ c ∈ hexEncode bs, c ≠ ':' := by
  induction bs with
  | nil => simp [hexEncode]
  | cons b bs ih =>
    intro c hc
    have h256 : b < 256 := hb b (List.mem_cons_self ..)
    simp only [hexEncode, List.mem_cons] at hc
    rcases hc with rfl | rfl | hc
    · exact hexDigit_ne_colon _ (by omega)
    · exact hexDigit_ne_colon _ (by omega)
    · exact ih (fun x hx => hb x (List.mem_cons_of_mem _ hx)) c hc


/-! ## Proofs about UTF-8 -/

theorem char_valid_nat (c : Char) :
    c.toNat < 55296 ∨ (57343 < c.toNat ∧ c.toNat < 1114112) := c.valid

theorem utf8EncodeChar_lt256 (c : Char) : ∀ b ∈ utf8EncodeChar c, b < 256 := by
  have hv := char_valid_nat c
  intro b hb
  simp only [utf8EncodeChar] at hb
  split_ifs at hb with h1 h2 h3 <;>
    simp only [List.mem_cons, List.not_mem_nil, or_false] at hb <;>
    omega

theorem utf8Decode_encodeChar (c : Char) (rest : List Nat) :
    utf8Decode (utf8EncodeChar c ++ rest) = (utf8Decode rest).map (c :: ·) := by
  have hv := char_valid_nat c
  have hofn : Char.ofNat c.toNat = c := Char.ofNat_toNat c
  by_cases h1 : c.toNat < 0x80
  · have henc : utf8EncodeChar c = [c.toNat] := by
      simp only [utf8EncodeChar, if_pos h1]
    rw [henc, List.cons_append, List.nil_append, utf8Decode, if_pos h1, hofn]
  · by_cases h2 : c.toNat < 0x800
    · have henc : utf8EncodeChar c =
          [0xC0 + c.toNat / 64, 0x80 + c.toNat % 64] := by
        simp only [utf8EncodeChar, if_neg h1, if_pos h2]
      rw [henc, List.cons_append, List.cons_append, List.nil_append, utf8Decode]
      simp only [List.getD_cons_zero, List.getD_cons_succ, List.length_cons,
        List.drop_succ_cons, List.drop_zero]
      rw [if_neg (by omega), if_neg (by omega), if_pos (by omega),
        if_pos (by
          refine ⟨by omega, ?_⟩
          simp only [isCont, Bool.and_eq_true, decide_eq_true_eq]
          omega)]
      rw [show utf8Val2 (0xC0 + c.toNat / 64) (0x80 + c.toNat % 64) = c.toNat by
        simp only [utf8Val2]; omega]
      rw [hofn]
    · by_cases h3 : c.toNat < 0x10000
      · have henc : utf8EncodeChar c =
            [0xE0 + c.toNat / 4096, 0x80 + c.toNat / 64 % 64,
             0x80 + c.toNat % 64] := by
          simp only [utf8EncodeChar, if_neg h1, if_neg h2, if_pos h3]
        have hval : utf8Val3 (0xE0 + c.toNat / 4096) (0x80 + c.toNat / 64 % 64)
            (0x80 + c.toNat % 64) = c.toNat := by
          simp only [utf8Val3]; omega
        rw [henc, List.cons_append, List.cons_append, List.cons_append,
          List.nil_append, utf8Decode]
        simp only [List.getD_cons_zero, List.getD_cons_succ, List.length_cons,
          List.drop_succ_cons, List.drop_zero]
        rw [if_neg (by omega), if_neg (by omega), if_neg (by omega),
          if_pos (by omega),
          if_pos (by
            refine ⟨by omega, ?_, ?_, ?_, ?_⟩
            · simp only [isCont, Bool.and_eq_true, decide_eq_true_eq]; omega
            · simp only [isCont, Bool.and_eq_true, decide_eq_true_eq]; omega
            · rw [hval]; omega
            · rw [hval]; omega)]
        rw [hval, hofn]
      · have henc : utf8EncodeChar c =
            [0xF0 + c.toNat / 0x40000, 0x80 + c.toNat / 4096 % 64,
             0x80 + c.toNat / 64 % 64, 0x80 + c.toNat % 64] := by
          simp only [utf8EncodeChar, if_neg h1, if_neg h2, if_neg h3]
        have hval : utf8Val4 (0xF0 + c.toNat / 0x40000)
            (0x80 + c.toNat / 4096 % 64) (0x80 + c.toNat / 64 % 64)
            (0x80 + c.toNat % 64) = c.toNat := by
          simp only [utf8Val4]; omega
        rw [henc, List.cons_append, List.cons_append, List.cons_append,
          List.cons_append, List.nil_append, utf8Decode]
        simp only [List.getD_cons_zero, List.getD_cons_succ, List.length_cons,
          List.drop_succ_cons, List.drop_zero]
        rw [if_neg (by omega), if_neg (by omega), if_neg (by omega),
          if_neg (by omega), if_pos (by omega),
          if_pos (by
            refine ⟨by omega, ?_, ?_, ?_, ?_, ?_⟩
            · simp only [isCont, Bool.and_eq_true, decide_eq_true_eq]; omega
            · simp only [isCont, Bool.and_eq_true, decide_eq_true_eq]; omega
            · simp only [isCont, Bool.and_eq_true, decide_eq_true_eq]; omega
            · rw [hval]; omega
            · rw [hval]; omega)]
        rw [hval, hofn]

theorem utf8Decode_utf8Encode (l : List Char) :
    utf8Decode (utf8Encode l) = some l := by
  induction l with
  | nil => simp [utf8Encode, utf8Decode]
  | cons c cs ih =>
    rw [utf8Encode, utf8Decode_encodeChar, ih, Option.map_some']

theorem strDecode_strEncode (s : String) : strDecode (strEncode s) = some s := by
  unfold strDecode strEncode
  rw [utf8Decode_utf8Encode]
  cases s
  rfl

theorem strEncode_lt256 (s : String) : ∀ b ∈ strEncode s, b < 256 := by
  unfold strEncode
  generalize s.data = l
  induction l with
  | nil => simp [utf8Encode]
  | cons c cs ih =>
    intro b hb
    rw [utf8Encode, List.mem_append] at hb
    rcases hb with hb | hb
    · exact utf8EncodeChar_lt256 c b hb
    · exact ih b hb

/-! ## Proofs about PKCS#7 padding -/

theorem padLen_bounds (l : List Nat) : 1 ≤ padLen l ∧ padLen l ≤ 16 := by
  unfold padLen
  omega

theorem pad16_length (l : List Nat) :
    (pad16 l).length = l.length + padLen l := by
  simp [pad16]

theorem pad16_mod (l : List Nat) : (pad16 l).length % 16 = 0 := by
  rw [pad16_length]
  unfold padLen
  omega

theorem pad16_lt256 (l : List Nat) (h : ∀ x ∈ l, x < 256) :
    ∀ x ∈ pad16 l, x < 256 := by
  intro x hx
  rw [pad16, List.mem_append] at hx
  rcases hx with hx | hx
  · exact h x hx
  · have := List.eq_of_mem_replicate hx
    have := (padLen_bounds l).2
    omega

theorem unpad16_pad16 (l : List Nat) : unpad16 (pad16 l) = some l := by
  have hp := padLen_bounds l
  have hlen : (pad16 l).length = l.length + padLen l := pad16_length l
  have hsub : (pad16 l).length - padLen l = l.length := by omega
  unfold unpad16
  rw [if_neg (by rw [hlen]; unfold padLen; omega)]
  have hlast : (pad16 l).getLast? = some (padLen l) := by
    rw [pad16, List.getLast?_append, List.getLast?_replicate,
      if_neg (by omega)]
    rfl
  rw [hlast]
  have hdrop : List.drop ((pad16 l).length - padLen l) (pad16 l) =
      List.replicate (padLen l) (padLen l) := by
    rw [hsub]
    conv_lhs => rw [pad16]
    exact List.drop_left _ _
  dsimp only
  rw [if_pos ⟨hp.1, hp.2, by omega, hdrop⟩]
  rw [hsub]
  conv_lhs => rw [pad16]
  rw [List.take_left]

/-! ## Proofs about ECB chunking -/

theorem ecbGo_nil (f : List Nat → List Nat) : ecbGo f [] [] = [] := rfl

theorem ecbGo_block (f : List Nat → List Nat) (B : List Nat) :
    ∀ (acc rest : List Nat), acc.length + B.length = 16 → B ≠ [] →
    ecbGo f acc (B ++ rest) = f (acc.reverse ++ B) ++ ecbGo f [] rest := by
  induction B with
  | nil => intro acc rest h hB; cases hB rfl
  | cons b bs ih =>
    intro acc rest h hB
    rw [List.cons_append, ecbGo]
    by_cases hbs : bs = []
    · subst hbs
      rw [if_pos (by simp at h ⊢; omega)]
      simp
    · rw [if_neg (by
        have : 1 ≤ bs.length := by
          cases bs with
          | nil => exact absurd rfl hbs
          | cons _ _ => simp
        simp at h
        omega)]
      rw [ih (b :: acc) rest (by simp at h ⊢; omega) hbs]
      simp

theorem ecb_length (E : List Nat → List Nat)
    (hlen : ∀ b, b.length = 16 → (∀ x ∈ b, x < 256) → (E b).length = 16) :
    ∀ n (l : List Nat), l.length = 16 * n → (∀ x ∈ l, x < 256) →
    (ecbGo E [] l).length = 16 * n := by
  intro n
  induction n with
  | zero =>
    intro l hl _
    have : l = [] := List.length_eq_zero.mp (by omega)
    subst this
    rfl
  | succ n ih =>
    intro l hl hb
    have h16 : (l.take 16).length = 16 := by
      rw [List.length_take]
      omega
    have hsplit : l = l.take 16 ++ l.drop 16 := (List.take_append_drop 16 l).symm
    have hbt : ∀ x ∈ l.take 16, x < 256 :=
      fun x hx => hb x (List.mem_of_mem_take hx)
    have hbd : ∀ x ∈ l.drop 16, x < 256 :=
      fun x hx => hb x (List.mem_of_mem_drop hx)
    rw [hsplit, ecbGo_block E (l.take 16) [] (l.drop 16) (by simpa using h16)
      (by intro h0; rw [h0] at h16; simp at h16)]
    rw [List.length_append, List.reverse_nil, List.nil_append,
      hlen _ h16 hbt, ih (l.drop 16) (by simp; omega) hbd]
    ring

theorem ecb_bytes (E : List Nat → List Nat)
    (hbytes : ∀ b, b.length = 16 → (∀ x ∈ b, x < 256) → ∀ x ∈ E b, x < 256) :
    ∀ n (l : List Nat), l.length = 16 * n → (∀ x ∈ l, x < 256) →
    ∀ x ∈ ecbGo E [] l, x < 256 := by
  intro n
  induction n with
  | zero =>
    intro l hl _
    have : l = [] := List.length_eq_zero.mp (by omega)
    subst this
    simp [ecbGo_nil]
  | succ n ih =>
    intro l hl hb
    have h16 : (l.take 16).length = 16 := by
      rw [List.length_take]
      omega
    have hsplit : l = l.take 16 ++ l.drop 16 := (List.take_append_drop 16 l).symm
    have hbt : ∀ x ∈ l.take 16, x < 256 :=
      fun x hx => hb x (List.mem_of_mem_take hx)
    have hbd : ∀ x ∈ l.drop 16, x < 256 :=
      fun x hx => hb x (List.mem_of_mem_drop hx)
    rw [hsplit, ecbGo_block E (l.take 16) [] (l.drop 16) (by simpa using h16)
      (by intro h0; rw [h0] at h16; simp at h16)]
    intro x hx
    rw [List.reverse_nil, List.nil_append, List.mem_append] at hx
    rcases hx with hx | hx
    · exact hbytes _ h16 hbt x hx
    · exact ih (l.drop 16) (by simp; omega) hbd x hx

theorem ecb_roundtrip (E D : List Nat → List Nat)
    (hlen : ∀ b, b.length = 16 → (∀ x ∈ b, x < 256) → (E b).length = 16)
    (hinv : ∀ b, b.length = 16 → (∀ x ∈ b, x < 256) → D (E b) = b) :
    ∀ n (l : List Nat), l.length = 16 * n → (∀ x ∈ l, x < 256) →
    ecbGo D [] (ecbGo E [] l) = l := by
  intro n
  induction n with
  | zero =>
    intro l hl _
    have : l = [] := List.length_eq_zero.mp (by omega)
    subst this
    rfl
  | succ n ih =>
    intro l hl hb
    have h16 : (l.take 16).length = 16 := by
      rw [List.length_take]
      omega
    have hsplit : l = l.take 16 ++ l.drop 16 := (List.take_append_drop 16 l).symm
    have hbt : ∀ x ∈ l.take 16, x < 256 :=
      fun x hx => hb x (List.mem_of_mem_take hx)
    have hbd : ∀ x ∈ l.drop 16, x < 256 :=
      fun x hx => hb x (List.mem_of_mem_drop hx)
    have hE16 : (E (l.take 16)).length = 16 := hlen _ h16 hbt
    conv_lhs =>
      rw [hsplit, ecbGo_block E (l.take 16) [] (l.drop 16) (by simpa using h16)
        (by intro h0; rw [h0] at h16; simp at h16)]
    rw [List.reverse_nil, List.nil_append,
      ecbGo_block D (E (l.take 16)) [] (ecbGo E [] (l.drop 16))
        (by simpa using hE16)
        (by intro h0; rw [h0] at hE16; simp at hE16)]
    rw [List.reverse_nil, List.nil_append, hinv _ h16 hbt,
      ih (l.drop 16) (by simp; omega) hbd]
    exact (List.take_append_drop 16 l)

/-! ## Round trips of the cipher strategies -/

theorem blockDecrypt_blockEncrypt (Bp : BlockPrim) (hB : BlockPrimOK Bp)
    (kb : List Nat) (p : String) :
    blockDecrypt Bp kb (blockEncrypt Bp kb p) = .ok p := by
  have hmb : ∀ x ∈ pad16 (strEncode p), x < 256 :=
    pad16_lt256 _ (strEncode_lt256 p)
  have hmod : (pad16 (strEncode p)).length % 16 = 0 := pad16_mod _
  obtain ⟨n, hn⟩ : ∃ n, (pad16 (strEncode p)).length = 16 * n :=
    ⟨(pad16 (strEncode p)).length / 16, by omega⟩
  have henc : ecbApply (Bp.enc kb) (pad16 (strEncode p)) =
      some (ecbGo (Bp.enc kb) [] (pad16 (strEncode p))) := by
    unfold ecbApply
    rw [if_pos hmod]
  have hctb : ∀ x ∈ ecbGo (Bp.enc kb) [] (pad16 (strEncode p)), x < 256 :=
    ecb_bytes _ (fun b h1 h2 => hB.encBytes kb b h1 h2) n _ hn hmb
  have hctlen : (ecbGo (Bp.enc kb) [] (pad16 (strEncode p))).length = 16 * n :=
    ecb_length _ (fun b h1 h2 => hB.encLen kb b h1 h2) n _ hn hmb
  unfold blockEncrypt blockDecrypt
  rw [henc]
  dsimp only
  rw [hexDecode_hexEncode _ hctb]
  dsimp only
  have hdec : ecbApply (Bp.dec kb) (ecbGo (Bp.enc kb) [] (pad16 (strEncode p))) =
      some (ecbGo (Bp.dec kb) [] (ecbGo (Bp.enc kb) [] (pad16 (strEncode p)))) := by
    unfold ecbApply
    rw [if_pos (by omega)]
  rw [hdec]
  dsimp only
  rw [ecb_roundtrip _ _ (fun b h1 h2 => hB.encLen kb b h1 h2)
    (fun b h1 h2 => hB.decEnc kb b h1 h2) n _ hn hmb]
  rw [unpad16_pad16]
  dsimp only
  rw [strDecode_strEncode]

theorem xorKS_xorKS (ks : Nat → Nat) (l : List Nat) :
    ∀ i, xorKS ks i (xorKS ks i l) = l := by
  induction l with
  | nil => intro i; rfl
  | cons b bs ih =>
    intro i
    rw [xorKS, xorKS, Nat.xor_cancel_right, ih]

theorem xorKS_lt256 (ks : Nat → Nat) (hks : ∀ i, ks i < 256) (l : List Nat)
    (h : ∀ x ∈ l, x < 256) : ∀ i, ∀ x ∈ xorKS ks i l, x < 256 := by
  induction l with
  | nil => intro i x hx; simp [xorKS] at hx
  | cons b bs ih =>
    intro i x hx
    rw [xorKS, List.mem_cons] at hx
    have h2 : (2 : Nat) ^ 8 = 256 := by norm_num
    rcases hx with rfl | hx
    · have hb : b < 2 ^ 8 := by
        rw [h2]
        exact h b (List.mem_cons_self ..)
      have hk : ks i < 2 ^ 8 := by
        rw [h2]
        exact hks i
      have := Nat.xor_lt_two_pow hb hk
      omega
    · exact ih (fun y hy => h y (List.mem_cons_of_mem _ hy)) (i + 1) x hx

theorem splitColon_of_no_colon (l : List Char) (h : ∀ c ∈ l, c ≠ ':') :
    splitColon l = (l, []) := by
  induction l with
  | nil => rfl
  | cons c cs ih =>
    rw [splitColon, ih (fun x hx => h x (List.mem_cons_of_mem _ hx))]
    simp only [if_neg (h c (List.mem_cons_self ..))]

theorem splitColon_append (a b : List Char) (ha : ∀ c ∈ a, c ≠ ':')
    (hb : ∀ c ∈ b, c ≠ ':') :
    splitColon (a ++ ':' :: b) = (a, [b]) := by
  induction a with
  | nil =>
    rw [List.nil_append, splitColon, splitColon_of_no_colon b hb]
    simp
  | cons c cs ih =>
    rw [List.cons_append, splitColon,
      ih (fun x hx => ha x (List.mem_cons_of_mem _ hx))]
    simp only [if_neg (ha c (List.mem_cons_self ..))]

theorem chacha_decrypt_encrypt (P : CryptoPrims)
    (hks : ∀ k n i, P.chachaKS k n i < 256) (key p : String)
    (nonce : List Nat) (hN : ∀ x ∈ nonce, x < 256) :
    Chacha20.decrypt P key (Chacha20.encrypt P key nonce p) = .ok p := by
  unfold Chacha20.encrypt Chacha20.decrypt
  have hctb : ∀ x ∈ xorKS (P.chachaKS (Chacha20.key_bytes key) nonce) 0
      (strEncode p), x < 256 :=
    xorKS_lt256 _ (fun i => hks _ _ i) _ (strEncode_lt256 p) 0
  rw [splitColon_append _ _ (mem_hexEncode_ne_colon nonce hN)
    (mem_hexEncode_ne_colon _ hctb)]
  dsimp only
  rw [hexDecode_hexEncode nonce hN, hexDecode_hexEncode _ hctb]
  dsimp only
  rw [xorKS_xorKS, strDecode_strEncode]

/-! ## Helper lemmas about the cache and the repositories -/

theorem cacheGet_cacheSet (c : List (String × CacheEntry)) (k : String)
    (e : CacheEntry) : cacheGet (cacheSet c k e) k = some e := by
  unfold cacheGet cacheSet
  rw [List.find?_cons_of_pos _ (by simp)]
  rfl

theorem cacheGetCipher_after_set (db db2 : KasaDB) (i : Nat) (c : ModelCipher)
    (h : db2.cache = cacheSet db.cache (CipherRepository.cacheKey i) (.cipherE c)) :
    CipherRepository.cacheGetCipher db2 i = some c := by
  unfold CipherRepository.cacheGetCipher
  rw [h, cacheGet_cacheSet]

theorem cipherGet_rows (db : KasaDB) (i : Nat) (s : Bool) :
    ((CipherRepository.get db i s).snd).cipherRows = db.cipherRows := by
  unfold CipherRepository.get
  split
  · rfl
  · split
    · split <;> rfl
    · rfl

theorem idPrimsOK : CryptoPrimsOK idPrims :=
  ⟨⟨fun _ _ h _ => h, fun _ _ _ hb => hb, fun _ _ _ _ => rfl⟩,
   ⟨fun _ _ h _ => h, fun _ _ _ hb => hb, fun _ _ _ _ => rfl⟩,
   fun _ _ _ => by norm_num [idPrims]⟩

/-! ## Claim theorems -/

/-- C2: for every supported encryption method in {aes128, aes256,
chacha20}, every key string and every plaintext string (including the
empty string and non-ASCII text), decrypting the result of encrypting
the plaintext with that method and key, using the same method and key,
returns the original plaintext.  (The external cores are quantified
over their documented contracts; ChaCha20's fresh random nonce is the
quantified byte list `nonce`.) -/
theorem c2_roundtrip_all_methods (P : CryptoPrims) (hP : CryptoPrimsOK P)
    (key p : String) (nonce : List Nat) (hN : ∀ x ∈ nonce, x < 256) :
    AES128.decrypt P key (AES128.encrypt P key p) = .ok p ∧
    AES256.decrypt P key (AES256.encrypt P key p) = .ok p ∧
    Chacha20.decrypt P key (Chacha20.encrypt P key nonce p) = .ok p :=
  ⟨blockDecrypt_blockEncrypt _ hP.aes128OK _ p,
   blockDecrypt_blockEncrypt _ hP.aes256OK _ p,
   chacha_decrypt_encrypt P hP.ksBytes key p nonce hN⟩

/-- Witness for C2 at a concrete non-ASCII plaintext, a concrete key
and a concrete nonce, under the concrete contract-abiding core. -/
theorem c2_roundtrip_witness :
    (∀ x ∈ [1, 2, 3, 4, 5, 6, 7, 8], x < 256) ∧
    (AES128.decrypt idPrims "k1" (AES128.encrypt idPrims "k1" "héllo ✓") = .ok "héllo ✓" ∧
     AES256.decrypt idPrims "k1" (AES256.encrypt idPrims "k1" "héllo ✓") = .ok "héllo ✓" ∧
     Chacha20.decrypt idPrims "k1"
       (Chacha20.encrypt idPrims "k1" [1, 2, 3, 4, 5, 6, 7, 8] "héllo ✓") = .ok "héllo ✓") :=
  ⟨by decide,
   c2_roundtrip_all_methods idPrims idPrimsOK "k1" "héllo ✓"
     [1, 2, 3, 4, 5, 6, 7, 8] (by decide)⟩

/-- C8: each method's key is the UTF-8 encoding of the key string
truncated to the method's key length and right-padded with the filler
byte `0x30`; consequently two key strings whose UTF-8 encodings agree
on the first 16 bytes (aes128), resp. 32 bytes (aes256, chacha20),
give identical encryption and decryption behaviour. -/
theorem c8_key_equivalence (P : CryptoPrims) (k1 k2 : String) :
    ((strEncode k1).take 16 = (strEncode k2).take 16 →
      AES128.key_bytes k1 = AES128.key_bytes k2 ∧
      (∀ p, AES128.encrypt P k1 p = AES128.encrypt P k2 p) ∧
      (∀ d, AES128.decrypt P k1 d = AES128.decrypt P k2 d)) ∧
    ((strEncode k1).take 32 = (strEncode k2).take 32 →
      (AES256.key_bytes k1 = AES256.key_bytes k2 ∧
       (∀ p, AES256.encrypt P k1 p = AES256.encrypt P k2 p) ∧
       (∀ d, AES256.decrypt P k1 d = AES256.decrypt P k2 d)) ∧
      (Chacha20.key_bytes k1 = Chacha20.key_bytes k2 ∧
       (∀ nonce p, Chacha20.encrypt P k1 nonce p = Chacha20.encrypt P k2 nonce p) ∧
       (∀ d, Chacha20.decrypt P k1 d = Chacha20.decrypt P k2 d))) := by
  constructor
  · intro h16
    have hk : AES128.key_bytes k1 = AES128.key_bytes k2 := by
      unfold AES128.key_bytes keyBytes
      rw [h16]
    exact ⟨hk,
      fun p => by unfold AES128.encrypt; rw [hk],
      fun d => by unfold AES128.decrypt; rw [hk]⟩
  · intro h32
    have hk : AES256.key_bytes k1 = AES256.key_bytes k2 := by
      unfold AES256.key_bytes keyBytes
      rw [h32]
    have hkc : Chacha20.key_bytes k1 = Chacha20.key_bytes k2 := by
      unfold Chacha20.key_bytes keyBytes
      rw [h32]
    exact ⟨⟨hk,
      fun p => by unfold AES256.encrypt; rw [hk],
      fun d => by unfold AES256.decrypt; rw [hk]⟩,
      ⟨hkc,
      fun nonce p => by unfold Chacha20.encrypt; rw [hkc],
      fun d => by unfold Chacha20.decrypt; rw [hkc]⟩⟩

/-- Witness for C8: two 33-character keys agreeing on their first 16
and 32 UTF-8 bytes but differing beyond them behave identically. -/
theorem c8_key_equivalence_witness :
    ((strEncode "aaaaaaaaaaaaaaaabbbbbbbbbbbbbbbbX").take 16 =
      (strEncode "aaaaaaaaaaaaaaaabbbbbbbbbbbbbbbbY").take 16) ∧
    ((strEncode "aaaaaaaaaaaaaaaabbbbbbbbbbbbbbbbX").take 32 =
      (strEncode "aaaaaaaaaaaaaaaabbbbbbbbbbbbbbbbY").take 32) ∧
    (∀ p, AES128.encrypt idPrims "aaaaaaaaaaaaaaaabbbbbbbbbbbbbbbbX" p =
      AES128.encrypt idPrims "aaaaaaaaaaaaaaaabbbbbbbbbbbbbbbbY" p) ∧
    (∀ p, AES256.encrypt idPrims "aaaaaaaaaaaaaaaabbbbbbbbbbbbbbbbX" p =
      AES256.encrypt idPrims "aaaaaaaaaaaaaaaabbbbbbbbbbbbbbbbY" p) :=
  ⟨by decide, by decide,
   ((c8_key_equivalence idPrims _ _).1 (by decide)).2.1,
   (((c8_key_equivalence idPrims _ _).2 (by decide)).1).2.1⟩

/-- C9: constructing a `Salt` with method `argon2` fails fast with a
construction-time `ImportError` (never silently substituting another
hash method), although `argon2` is included in the supported-methods
list `get_methods` returns. -/
theorem c9_argon2_fails_fast (v : Option String) (g : String) :
    Salt.new "argon2" v g = .error .importArgon2 ∧
    "argon2" ∈ Salt.get_methods := by
  constructor
  · unfold Salt.new
    rw [if_neg (by simp [Salt.methods]), if_pos rfl]
  · simp [Salt.get_methods, Salt.methods]

/-- C10: `SaltRepository.delete_all` removes every salt row from the
relational store and flushes the whole cache database, evicting every
cached entry of every kind, while leaving the cipher and session
tables of the store untouched. -/
theorem c10_delete_all_flushes_everything (db : KasaDB) :
    (SaltRepository.delete_all db).saltRows = [] ∧
    (SaltRepository.delete_all db).cache = [] ∧
    (∀ k, cacheGet (SaltRepository.delete_all db).cache k = none) ∧
    (SaltRepository.delete_all db).cipherRows = db.cipherRows ∧
    (SaltRepository.delete_all db).sessionRows = db.sessionRows :=
  ⟨rfl, rfl, fun _ => rfl, rfl, rfl⟩

/-- C4 counterexample: with the first cache write failing, `add` does
NOT return the new id — the exception propagates — refuting the claim
that the cache error is swallowed and the id still returned. -/
theorem c4_cache_failure_counterexample :
    (CipherRepository.add emptyDB "n" "e" "aes256" false).fst =
      .error .cacheWriteFailed := rfl

/-- C4 (amended): when the cache write fails after the store insert
commits, the store insert is not rolled back — the new row is in the
store and the cache is unchanged — but the cache error propagates to
the caller instead of being swallowed, and the new id is not returned. -/
theorem c4_cache_failure_propagates (db : KasaDB) (name enc method : String) :
    (CipherRepository.add db name enc method false).fst =
      .error .cacheWriteFailed ∧
    (CipherRepository.add db name enc method false).snd.cipherRows =
      db.cipherRows ++ [⟨db.nextCipherId, name, enc, method⟩] ∧
    (CipherRepository.add db name enc method false).snd.cache = db.cache :=
  ⟨rfl, rfl, rfl⟩

/-- C5: `get(id)` checks the cache first and on a hit returns the
cached record without querying the store (even an unavailable store);
on a miss it queries the store, populates the cache with a found row
before returning it, so that a second `get(id)` is served from the
cache with the same record and unchanged state; when the id is in
neither cache nor store it returns `none`, never an error. -/
theorem c5_get_read_through (db : KasaDB) (i : Nat) :
    (∀ storeOk c, CipherRepository.cacheGetCipher db i = some c →
      CipherRepository.get db i storeOk = (.ok (some c), db)) ∧
    (∀ c, CipherRepository.cacheGetCipher db i = none →
      CipherRepository.storeGetCipher db i = some c →
      (CipherRepository.get db i true).fst = .ok (some c) ∧
      (CipherRepository.get db i true).snd.cache =
        cacheSet db.cache (CipherRepository.cacheKey i) (.cipherE c) ∧
      CipherRepository.get (CipherRepository.get db i true).snd i true =
        (.ok (some c), (CipherRepository.get db i true).snd)) ∧
    (CipherRepository.cacheGetCipher db i = none →
      CipherRepository.storeGetCipher db i = none →
      CipherRepository.get db i true = (.ok none, db)) := by
  refine ⟨?_, ?_, ?_⟩
  · intro storeOk c hc
    unfold CipherRepository.get
    rw [hc]
  · intro c hc hs
    obtain ⟨db2, hget, hcache⟩ : ∃ db2,
        CipherRepository.get db i true = (.ok (some c), db2) ∧
        db2.cache = cacheSet db.cache (CipherRepository.cacheKey i) (.cipherE c) :=
      ⟨{ db with cache := cacheSet db.cache (CipherRepository.cacheKey i) (.cipherE c) },
       by unfold CipherRepository.get; rw [hc, hs]; rfl, rfl⟩
    refine ⟨by rw [hget], by rw [hget, hcache], ?_⟩
    rw [hget]
    have hc2 := cacheGetCipher_after_set db db2 i c hcache
    unfold CipherRepository.get
    rw [hc2]
  · intro hc hs
    unfold CipherRepository.get
    rw [hc, hs]
    rfl

/-- Witness for C5: with `rowW` store-resident and the cache empty, a
first `get 1` returns `rowW` repopulating the cache and a second
`get 1` is served from the cache with the same record and state. -/
theorem c5_get_read_through_witness :
    CipherRepository.cacheGetCipher dbW 1 = none ∧
    CipherRepository.storeGetCipher dbW 1 = some rowW ∧
    ((CipherRepository.get dbW 1 true).fst = .ok (some rowW) ∧
     (CipherRepository.get dbW 1 true).snd.cache =
       cacheSet dbW.cache (CipherRepository.cacheKey 1) (.cipherE rowW) ∧
     CipherRepository.get (CipherRepository.get dbW 1 true).snd 1 true =
       (.ok (some rowW), (CipherRepository.get dbW 1 true).snd)) :=
  ⟨rfl, rfl, (c5_get_read_through dbW 1).2.1 rowW rfl rfl⟩

theorem saltGet_ok_none (db : KasaDB) (i : Nat)
    (h : (SaltRepository.get db i true).fst = .ok none) :
    SaltRepository.get db i true = (.ok none, db) := by
  unfold SaltRepository.get at h ⊢
  cases hc : SaltRepository.cacheGetSalt db i with
  | some s =>
    rw [hc] at h
    simp at h
  | none =>
    rw [hc] at h
    cases hs : SaltRepository.storeGetSalt db i with
    | some s =>
      rw [hs] at h
      simp at h
    | none => rfl

/-- C6: `decrypt_cipher_with_first_salt_key` re-verifies that a salt
with id 1 still exists before decrypting and fails with the
first-salt-missing error when it does not; the state — in particular
every cipher record — is left untouched. -/
theorem c6_decrypt_reverifies_first_salt (P : CryptoPrims) (db : KasaDB)
    (i : Nat) (h : (SaltRepository.get db 1 true).fst = .ok none) :
    CipherService.decrypt_cipher_with_first_salt_key P db i =
      (.error .firstSaltMissing, db) ∧
    (CipherService.decrypt_cipher_with_first_salt_key P db i).snd.cipherRows =
      db.cipherRows := by
  have hg := saltGet_ok_none db 1 h
  have hmain : CipherService.decrypt_cipher_with_first_salt_key P db i =
      (.error .firstSaltMissing, db) := by
    unfold CipherService.decrypt_cipher_with_first_salt_key SaltService.get_salt
    rw [hg]
  exact ⟨hmain, by rw [hmain]⟩

/-- Witness for C6: in a state holding the untouched cipher `rowW` but
no salt (as after deleting the first salt), decryption fails with the
first-salt-missing error. -/
theorem c6_decrypt_reverifies_witness :
    (SaltRepository.get dbNoSalt 1 true).fst = .ok none ∧
    (CipherService.decrypt_cipher_with_first_salt_key idPrims dbNoSalt 1 =
      (.error .firstSaltMissing, dbNoSalt) ∧
     (CipherService.decrypt_cipher_with_first_salt_key idPrims dbNoSalt 1).snd.cipherRows =
      dbNoSalt.cipherRows) :=
  ⟨rfl, c6_decrypt_reverifies_first_salt idPrims dbNoSalt 1 rfl⟩

/-- C7: `update_cipher` on an existing cipher with a new plaintext or a
new method but no key raises `KeyRequired` inside the `try` body (the
wrapper then reports failure as `False`), leaving the store unchanged. -/
theorem c7_update_requires_key (P : CryptoPrims) (db : KasaDB) (i : Nat)
    (nameO ptO mO : Option String) (nonce : List Nat) (row : ModelCipher)
    (hrow : (CipherRepository.get db i true).fst = .ok (some row))
    (hreq : (ptO.isSome || mO.isSome) = true) :
    (CipherService.update_cipher_inner P db i nameO ptO mO none nonce).fst =
      .error .keyRequired ∧
    (CipherService.update_cipher P db i nameO ptO mO none nonce).fst = false ∧
    (CipherService.update_cipher P db i nameO ptO mO none nonce).snd.cipherRows =
      db.cipherRows := by
  have hpair : CipherRepository.get db i true =
      (.ok (some row), (CipherRepository.get db i true).snd) := by
    rw [← hrow]
  have hinner : CipherService.update_cipher_inner P db i nameO ptO mO none nonce =
      (.error .keyRequired, (CipherRepository.get db i true).snd) := by
    unfold CipherService.update_cipher_inner
    rw [hpair]
    dsimp only
    rw [if_pos (by simp only [Option.isSome_none, Bool.or_false]; exact hreq)]
  refine ⟨by rw [hinner], ?_, ?_⟩
  · unfold CipherService.update_cipher
    rw [hinner]
  · unfold CipherService.update_cipher
    rw [hinner]
    exact cipherGet_rows db i true

/-- Witness for C7: on the store-resident cipher `rowW`, a requested
new plaintext without a key fails with `KeyRequired` and changes
nothing. -/
theorem c7_update_requires_key_witness :
    (CipherRepository.get dbW 1 true).fst = .ok (some rowW) ∧
    (((Option.some "new").isSome || (Option.none : Option String).isSome) = true) ∧
    ((CipherService.update_cipher_inner idPrims dbW 1 none (some "new") none none []).fst =
      .error .keyRequired ∧
     (CipherService.update_cipher idPrims dbW 1 none (some "new") none none []).fst = false ∧
     (CipherService.update_cipher idPrims dbW 1 none (some "new") none none []).snd.cipherRows =
      dbW.cipherRows) :=
  ⟨rfl, rfl,
   c7_update_requires_key idPrims dbW 1 none (some "new") none [] rowW rfl rfl⟩

/-- C1: `create_cipher_with_first_salt_key` fails with the
first-salt-missing error when the repository has no salt with id 1;
when a salt with id 1 exists — whatever its `method` and `salt` value —
it encrypts the plaintext with the decimal string `"1"` of the salt id
as the key (not the salt's stored value, nor a digest), stores the
resulting cipher record, and the stored record decrypts back to the
plaintext with that same key `"1"`. -/
theorem c1_create_with_first_salt_key (P : CryptoPrims) (hP : CryptoPrimsOK P)
    (db : KasaDB) (name plaintext method : String) (nonce : List Nat)
    (hN : ∀ x ∈ nonce, x < 256)
    (hm : pyLower method = "aes128" ∨ pyLower method = "aes256" ∨
          pyLower method = "chacha20") :
    ((SaltRepository.get db 1 true).fst = .ok none →
      CipherService.create_cipher_with_first_salt_key P db name plaintext
        method nonce = (.error .firstSaltMissing, db)) ∧
    (∀ srow, (SaltRepository.get db 1 true).fst = .ok (some srow) →
      ∃ cid db2 row,
        CipherService.create_cipher_with_first_salt_key P db name plaintext
          method nonce = (.ok cid, db2) ∧
        row ∈ db2.cipherRows ∧ row.id = cid ∧ row.name = name ∧
        row.method = method ∧
        Encryptor.encrypt P method "1" nonce plaintext =
          .ok row.encrypted_cipher ∧
        CipherService.decrypt_cipher P db2 cid "1" = (.ok plaintext, db2)) := by
  constructor
  · intro h
    have hg := saltGet_ok_none db 1 h
    unfold CipherService.create_cipher_with_first_salt_key SaltService.get_salt
    rw [hg]
  · intro srow hex
    obtain ⟨enc, hEnc, hDec⟩ : ∃ enc,
        Encryptor.encrypt P method "1" nonce plaintext = .ok enc ∧
        Decryptor.decrypt P method "1" enc = .ok plaintext := by
      rcases hm with hm | hm | hm
      · refine ⟨AES128.encrypt P "1" plaintext, ?_, ?_⟩
        · unfold Encryptor.encrypt
          rw [hm]
          simp
        · unfold Decryptor.decrypt
          rw [hm]
          simp only [reduceIte]
          exact blockDecrypt_blockEncrypt _ hP.aes128OK _ _
      · refine ⟨AES256.encrypt P "1" plaintext, ?_, ?_⟩
        · unfold Encryptor.encrypt
          rw [hm]
          simp
        · unfold Decryptor.decrypt
          rw [hm]
          simp only [reduceIte]
          exact blockDecrypt_blockEncrypt _ hP.aes256OK _ _
      · refine ⟨Chacha20.encrypt P "1" nonce plaintext, ?_, ?_⟩
        · unfold Encryptor.encrypt
          rw [hm]
          simp
        · unfold Decryptor.decrypt
          rw [hm]
          simp only [reduceIte]
          exact chacha_decrypt_encrypt P hP.ksBytes "1" plaintext nonce hN
    set db1 := (SaltRepository.get db 1 true).snd with hdb1
    have hpair : SaltRepository.get db 1 true = (.ok (some srow), db1) := by
      rw [hdb1, ← hex]
    obtain ⟨cid, db2, row, hadd, hrows, hcache, hid, hname, hmeth, hencc⟩ :
        ∃ cid db2 row,
          CipherRepository.add db1 name enc method true = (.ok cid, db2) ∧
          db2.cipherRows = db1.cipherRows ++ [row] ∧
          db2.cache = cacheSet db1.cache (CipherRepository.cacheKey cid)
            (.cipherE row) ∧
          row.id = cid ∧ row.name = name ∧ row.method = method ∧
          row.encrypted_cipher = enc :=
      ⟨db1.nextCipherId, _, ⟨db1.nextCipherId, name, enc, method⟩,
       rfl, rfl, rfl, rfl, rfl, rfl, rfl⟩
    have hget2 : CipherRepository.get db2 cid true = (.ok (some row), db2) := by
      unfold CipherRepository.get
      rw [cacheGetCipher_after_set db1 db2 cid row hcache]
    have hrun : CipherService.create_cipher_with_first_salt_key P db name
        plaintext method nonce = (.ok cid, db2) := by
      unfold CipherService.create_cipher_with_first_salt_key
        SaltService.get_salt CipherService.create_cipher
        CipherService.get_cipher
      rw [hpair]
      dsimp only
      rw [hEnc]
      dsimp only
      rw [hadd]
      dsimp only
      rw [hget2]
    have hdecserv : CipherService.decrypt_cipher P db2 cid "1" =
        (.ok plaintext, db2) := by
      unfold CipherService.decrypt_cipher
      rw [hget2]
      dsimp only
      rw [hmeth, hencc, hDec]
    refine ⟨cid, db2, row, hrun, ?_, hid, hname, hmeth, ?_, hdecserv⟩
    · rw [hrows]
      simp
    · rw [hencc]
      exact hEnc

/-- Witness for C1: with the salt `⟨1, sha256, s⟩` present, creating
the cipher `"greet"` from plaintext `"hi"` with method `aes256`
succeeds and the stored record decrypts back to `"hi"` with key `"1"`. -/
theorem c1_create_with_first_salt_key_witness :
    (∀ x ∈ ([] : List Nat), x < 256) ∧
    (pyLower "aes256" = "aes128" ∨ pyLower "aes256" = "aes256" ∨
     pyLower "aes256" = "chacha20") ∧
    (SaltRepository.get dbSalt 1 true).fst = .ok (some ⟨1, "sha256", "s"⟩) ∧
    (∃ cid db2 row,
      CipherService.create_cipher_with_first_salt_key idPrims dbSalt "greet"
        "hi" "aes256" [] = (.ok cid, db2) ∧
      row ∈ db2.cipherRows ∧ row.id = cid ∧ row.name = "greet" ∧
      row.method = "aes256" ∧
      Encryptor.encrypt idPrims "aes256" "1" [] "hi" =
        .ok row.encrypted_cipher ∧
      CipherService.decrypt_cipher idPrims db2 cid "1" = (.ok "hi", db2)) :=
  ⟨by decide, by decide, rfl,
   (c1_create_with_first_salt_key idPrims idPrimsOK dbSalt "greet" "hi"
     "aes256" [] (by decide) (by decide)).2 ⟨1, "sha256", "s"⟩ rfl⟩

/-- C3 (code bug): with exactly one case-insensitive substring match —
the sole cipher `"dup_a"` matched by the pattern `"dup"` — the
operation does not proceed to decrypt as documented; the source's
extra `if cipher["name"] != cipher_name` check raises instead (with a
message that itself says "Proceeding with decryption"). -/
theorem c3_single_match_rejected :
    ((CipherService.search_ciphers_by_name dbDup "dup").fst.map
      (fun c => c.name) = ["dup_a"]) ∧
    (CipherService.decrypt_cipher_by_name_with_first_salt_key idPrims dbDup
      "dup").fst = .error (.nameMismatch "dup") := by
  constructor
  · rfl
  · rfl
